import Mathlib

/-!
# Verification of the AWS Secrets Manager wrapper (secretsmanager package)

Shallow embedding of the Go package `secretsmanager`: an encrypted per-key
cache with TTL expiry, a retry-with-exponential-backoff executor, a
whole-secret fetcher, the `Get` orchestrator and the `Watch` poll loop body,
plus the KMS/base64 encryption gateway (`EncryptValue` / `DecryptValue`).

Modelling conventions:
* Durations and instants are natural numbers (milliseconds).  `time.Since(t)`
  at instant `now` is `now - t` (truncated subtraction).
* The Go map `cache map[string]cachedSecret` is an association list with
  insert-or-overwrite update; the fetched `map[string]string` is an
  association list whose list order stands for one admissible Go map
  iteration order.
* External collaborators (the Secrets Manager client, `encoding/json`
  unmarshalling, and the KMS-backed `EncryptValue`/`DecryptValue` closures as
  seen from `Get`) are parameters: the store is a function from the call
  index (one `GetSecretValue` call per retry attempt) to its reply.
* Go `(result, err)` pairs in which both halves may be `nil` are modelled by
  a pair of `Option`s; fallible single-valued operations by `Except`.
-/

namespace SecretsManagerGo

/-- One cached entry: `cachedSecret { encryptedValue string; fetchedAt time.Time }`. -/
structure CachedSecret where
  encryptedValue : String
  fetchedAt : Nat
deriving DecidableEq

/-- The cache `map[string]cachedSecret`, as an association list. -/
abbrev Cache := List (String × CachedSecret)

/-- Go map read `cs, ok := cache[key]`. -/
def alookup : Cache → String → Option CachedSecret
  | [], _ => none
  | (k, v) :: rest, key => if k = key then some v else alookup rest key

/-- Go map write `cache[key] = v` (insert or overwrite). -/
def aupdate : Cache → String → CachedSecret → Cache
  | [], key, v => [(key, v)]
  | (k, w) :: rest, key, v =>
    if k = key then (key, v) :: rest else (k, w) :: aupdate rest key v

/-- The retry-relevant and cache-relevant configuration of a `SecretsManager`:
`secretName`, `maxAttempts`, `initialDelay`, `maxDelay`, `cacheTTL`. -/
structure Config where
  secretName : String
  maxAttempts : Nat
  initialDelay : Nat
  maxDelay : Nat
  cacheTTL : Nat
deriving DecidableEq

/-- The fixed defaults set by `NewSecretsManager`: 3 attempts, 500ms initial
delay, 5s delay cap, 10 minute cache TTL (all in milliseconds). -/
def defaultConfig (secretName : String) : Config :=
  ⟨secretName, 3, 500, 5000, 600000⟩

/-- One reply of the secret-store collaborator (`GetSecretValue`):
either an error (`err != nil`) or an output whose `SecretString` may be nil. -/
inductive StoreReply where
  | failure (e : String)
  | payload (s : Option String)
deriving DecidableEq

/-- Errors produced by a single `fetchSecrets` attempt. -/
inductive FetchErr where
  | store (e : String)
  | emptyPayload (secretName : String)
  | malformedPayload
deriving DecidableEq

/-- Errors returned by `Get`.  `cacheDecrypt` is the freshly constructed
`failed to decrypt cached value for <key>` error of the fresh-hit path;
`encryptFail`/`decryptFail` propagate the gateway error of the refresh path;
`notFound` is `<key>: secret not found`. -/
inductive GetErr where
  | fetch (e : FetchErr)
  | cacheDecrypt (key : String)
  | encryptFail (e : String)
  | notFound (key : String)
  | decryptFail (e : String)
deriving DecidableEq

/-- The collaborators injected into one `Get` call: the store replies per
attempt, JSON unmarshalling into a flat `map[string]string`, and the
`EncryptValue`/`DecryptValue` closures (KMS client, key id, context and
logger folded in). -/
structure Collab where
  store : Nat → StoreReply
  parse : String → Option (List (String × String))
  enc : String → Except String String
  dec : String → Except String String

/-- One step of the backoff executor trace: an invocation of the operation
(`attempt i` is the `i`-th call, 0-based) or a `time.Sleep(d)`. -/
inductive RetryEvent where
  | attempt (i : Nat)
  | sleep (d : Nat)
deriving DecidableEq

/-- Result of `retry`: Go returns `(result, err)` where either may be nil;
`calls` counts invocations of the operation and `events` is the ordered
trace of invocations and sleeps. -/
structure RetryResult (A E : Type) where
  result : Option A
  error : Option E
  calls : Nat
  events : List RetryEvent

/-- The sleep durations of a retry trace, in order. -/
def sleepsOf (events : List RetryEvent) : List Nat :=
  events.filterMap fun e =>
    match e with
    | .sleep d => some d
    | .attempt _ => none

/-- The loop body of `retry`: `remaining` iterations left, `i` the index of
the next call, `delay` the current backoff delay, `lastErr` the error of the
last failed attempt.  On failure the code sleeps `delay` and then sets
`delay = min(delay*2, maxDelay)`. -/
def retryLoop {A E : Type} (op : Nat → Except E A) (maxDelay : Nat) :
    Nat → Nat → Nat → Option E → RetryResult A E
  | 0, _, _, lastErr => ⟨none, lastErr, 0, []⟩
  | remaining + 1, i, delay, _ =>
    match op i with
    | .ok a => ⟨some a, none, 1, [.attempt i]⟩
    | .error e =>
      ⟨(retryLoop op maxDelay remaining (i + 1) (min (delay * 2) maxDelay) (some e)).result,
       (retryLoop op maxDelay remaining (i + 1) (min (delay * 2) maxDelay) (some e)).error,
       (retryLoop op maxDelay remaining (i + 1) (min (delay * 2) maxDelay) (some e)).calls + 1,
       .attempt i :: .sleep delay ::
         (retryLoop op maxDelay remaining (i + 1) (min (delay * 2) maxDelay) (some e)).events⟩

/-- `retry(operation)`: up to `maxAttempts` calls with exponential backoff
starting at `initialDelay`, doubling after each failure, capped at
`maxDelay`; returns the first success immediately, otherwise the last error. -/
def retry {A E : Type} (cfg : Config) (op : Nat → Except E A) : RetryResult A E :=
  retryLoop op cfg.maxDelay cfg.maxAttempts 0 cfg.initialDelay none

/-- One attempt of the `fetchSecrets` operation closure: propagate a store
error; fail if `SecretString` is nil or empty; fail if the payload does not
unmarshal into a flat `map[string]string`; otherwise return the mapping. -/
def fetchAttempt (secretName : String)
    (parse : String → Option (List (String × String)))
    (reply : StoreReply) : Except FetchErr (List (String × String)) :=
  match reply with
  | .failure e => .error (.store e)
  | .payload none => .error (.emptyPayload secretName)
  | .payload (some s) =>
    if s = "" then .error (.emptyPayload secretName)
    else
      match parse s with
      | none => .error .malformedPayload
      | some m => .ok m

/-- `fetchSecrets()`: the fetch attempt wrapped in `retry`. -/
def fetchSecrets (cfg : Config) (co : Collab) :
    RetryResult (List (String × String)) FetchErr :=
  retry cfg fun i => fetchAttempt cfg.secretName co.parse (co.store i)

/-- The cache-update loop of `Get`: for each `(k, v)` of the fetched mapping
(in iteration order), encrypt `v` and overwrite `cache[k]`; on the first
encryption failure stop and return the error, leaving the entries installed
so far in place. -/
def installLoop (enc : String → Except String String) (now : Nat) :
    Cache → List (String × String) → Cache × Option String
  | cache, [] => (cache, none)
  | cache, (k, v) :: rest =>
    match enc v with
    | .error e => (cache, some e)
    | .ok c => installLoop enc now (aupdate cache k ⟨c, now⟩) rest

/-- What one `Get` call produces: the returned `(value, err)` pair (`value`
is `""` whenever `err != nil`), the cache contents after the call, and the
number of calls made to the store collaborator. -/
structure GetOutcome where
  value : String
  error : Option GetErr
  cache : Cache
  storeCalls : Nat
deriving DecidableEq

/-- The miss/stale path of `Get`: fetch the whole secret (with retry); on
fetch error propagate it leaving the cache untouched; otherwise run the
cache-update loop, then look up the requested key and decrypt it. -/
def getRefresh (cfg : Config) (co : Collab) (cache : Cache) (now : Nat)
    (key : String) : GetOutcome :=
  match (fetchSecrets cfg co).error with
  | some e => ⟨"", some (.fetch e), cache, (fetchSecrets cfg co).calls⟩
  | none =>
    match installLoop co.enc now cache ((fetchSecrets cfg co).result.getD []) with
    | (cache1, some e) => ⟨"", some (.encryptFail e), cache1, (fetchSecrets cfg co).calls⟩
    | (cache1, none) =>
      match alookup cache1 key with
      | none => ⟨"", some (.notFound key), cache1, (fetchSecrets cfg co).calls⟩
      | some cs =>
        match co.dec cs.encryptedValue with
        | .error e => ⟨"", some (.decryptFail e), cache1, (fetchSecrets cfg co).calls⟩
        | .ok v => ⟨v, none, cache1, (fetchSecrets cfg co).calls⟩

/-- `Get(key)` at instant `now`: on a cached entry with
`time.Since(fetchedAt) < cacheTTL`, decrypt and return it (a decryption
failure is reported as the cached-value decryption error and does not
trigger a refresh); otherwise take the refresh path. -/
def Get (cfg : Config) (co : Collab) (cache : Cache) (now : Nat)
    (key : String) : GetOutcome :=
  match alookup cache key with
  | some cs =>
    if now - cs.fetchedAt < cfg.cacheTTL then
      match co.dec cs.encryptedValue with
      | .ok v => ⟨v, none, cache, 0⟩
      | .error _ => ⟨"", some (.cacheDecrypt key), cache, 0⟩
    else getRefresh cfg co cache now key
  | none => getRefresh cfg co cache now key

/-- The poll-tick body of `Watch`: given the outcome of this tick's `Get`
and the last-known value, return the new last-known value and the callback
invocation (if any).  On `Get` error the loop continues unchanged; on
success the callback fires with the new value exactly when it differs from
the last-known value. -/
def watchStep (res : Except GetErr String) (lastVal : String) :
    String × Option String :=
  match res with
  | .error _ => (lastVal, none)
  | .ok val => if val ≠ lastVal then (val, some val) else (lastVal, none)

/-- The `Watch` poll loop over a finite trace of per-tick `Get` outcomes:
returns the callback invocations in order. -/
def watchLoop (lastVal : String) : List (Except GetErr String) → List String
  | [] => []
  | r :: rest =>
    match watchStep r lastVal with
    | (newLast, some v) => v :: watchLoop newLast rest
    | (newLast, none) => watchLoop newLast rest

/-! ## The encryption gateway (`kms.go`): base64 and `EncryptValue`/`DecryptValue`

Byte strings (`[]byte`, and Go strings viewed through `[]byte(s)` /
`string(b)`) are `List Nat` with every element below 256; the base64 text is
`List Char`.  `b64Encode` models `base64.StdEncoding.EncodeToString` and
`b64Decode` models `base64.StdEncoding.DecodeString` (Go's standard decoder
is lenient about non-zero trailing padding bits, so no canonicity check is
made on the discarded low bits of the final sextet; padding is only accepted
in the final quantum). -/

/-- The standard base64 alphabet. -/
def b64Alphabet : List Char :=
  ("ABCDEFGHIJKLMNOPQRSTUVWXYZabcdefghijklmnopqrstuvwxyz0123456789+/").toList

/-- The character for a sextet. -/
def b64Char (s : Nat) : Char := b64Alphabet.getD s 'A'

/-- Index of a character in a list of characters. -/
def charIndex : List Char → Char → Option Nat
  | [], _ => none
  | a :: rest, c => if a = c then some 0 else (charIndex rest c).map (· + 1)

/-- The sextet for a character, `none` when it is not in the alphabet. -/
def b64Index (c : Char) : Option Nat := charIndex b64Alphabet c

/-- `base64.StdEncoding.EncodeToString`: three bytes become four characters;
one or two leftover bytes are padded with `=`. -/
def b64Encode : List Nat → List Char
  | [] => []
  | [a] => [b64Char (a / 4), b64Char (a % 4 * 16), '=', '=']
  | [a, b] => [b64Char (a / 4), b64Char (a % 4 * 16 + b / 16), b64Char (b % 16 * 4), '=']
  | a :: b :: c :: rest =>
    b64Char (a / 4) :: b64Char (a % 4 * 16 + b / 16) ::
      b64Char (b % 16 * 4 + c / 64) :: b64Char (c % 64) :: b64Encode rest

/-- `base64.StdEncoding.DecodeString`: four characters become three bytes;
`=` padding is accepted only at the end, and any other character outside the
alphabet, or a length not a multiple of four, is an error (`none`). -/
def b64Decode : List Char → Option (List Nat)
  | [] => some []
  | c1 :: c2 :: c3 :: c4 :: rest =>
    match b64Index c1, b64Index c2 with
    | some s1, some s2 =>
      if c3 = '=' then
        if c4 = '=' ∧ rest = [] then some [s1 * 4 + s2 / 16] else none
      else
        match b64Index c3 with
        | none => none
        | some s3 =>
          if c4 = '=' then
            if rest = [] then some [s1 * 4 + s2 / 16, s2 % 16 * 16 + s3 / 4] else none
          else
            match b64Index c4 with
            | none => none
            | some s4 =>
              (b64Decode rest).map
                (fun t => (s1 * 4 + s2 / 16) :: (s2 % 16 * 16 + s3 / 4) :: (s3 % 4 * 64 + s4) :: t)
    | _, _ => none
  | _ => none

/-- `EncryptValue`: call the external KMS `Encrypt` on the plaintext bytes
and base64-encode the returned ciphertext blob.  The KMS client (with the
key id and context) is the function parameter. -/
def EncryptValue (kmsEncrypt : List Nat → Except String (List Nat))
    (plaintext : List Nat) : Except String (List Char) :=
  match kmsEncrypt plaintext with
  | .error e => .error e
  | .ok blob => .ok (b64Encode blob)

/-- `DecryptValue`: base64-decode the ciphertext string (an invalid encoding
is an error) and call the external KMS `Decrypt` on the decoded blob. -/
def DecryptValue (kmsDecrypt : List Nat → Except String (List Nat))
    (ciphertextB64 : List Char) : Except String (List Nat) :=
  match b64Decode ciphertextB64 with
  | none => .error "failed to decode base64 ciphertext"
  | some blob =>
    match kmsDecrypt blob with
    | .error e => .error e
    | .ok pt => .ok pt

/-! ## Concrete fixtures (used to evaluate the model on explicit inputs) -/

/-- A small test configuration: 3 attempts, 500ms initial delay, 5s cap
(the fixed retry policy of `NewSecretsManager`) and a 10ms cache TTL. -/
def cfgT : Config := ⟨"test-secret", 3, 500, 5000, 10⟩

/-- A healthy collaborator: the store always returns payload `"J"`, which
parses to the single-entry mapping `K ↦ v`; encryption and decryption are
the identity (like the mock KMS client of the package's tests). -/
def collabOK : Collab :=
  ⟨fun _ => .payload (some "J"),
   fun s => if s = "J" then some [("K", "v")] else none,
   fun v => .ok v,
   fun c => .ok c⟩

/-- A collaborator whose upstream payload `"P"` holds only the key `NEW`. -/
def collabNew : Collab :=
  ⟨fun _ => .payload (some "P"),
   fun s => if s = "P" then some [("NEW", "v")] else none,
   fun v => .ok v,
   fun c => .ok c⟩

/-- A collaborator whose payload `"Q"` maps `A ↦ x, B ↦ y` and whose
encryption fails exactly on the plaintext `y`. -/
def collabEncFail : Collab :=
  ⟨fun _ => .payload (some "Q"),
   fun s => if s = "Q" then some [("A", "x"), ("B", "y")] else none,
   fun v => if v = "y" then .error "encboom" else .ok v,
   fun c => .ok c⟩

/-- A collaborator whose store fails on every call. -/
def collabStoreFail : Collab :=
  ⟨fun _ => .failure "neterr",
   fun _ => none,
   fun v => .ok v,
   fun c => .ok c⟩

/-- A collaborator whose decryption always fails. -/
def collabDecFail : Collab :=
  ⟨fun _ => .payload (some "J"),
   fun s => if s = "J" then some [("K", "v")] else none,
   fun v => .ok v,
   fun _ => .error "decboom"⟩

/-- An operation that fails on every attempt. -/
def opFail : Nat → Except String Unit := fun _ => .error "e"

/-- An identity external encryption service (its `Decrypt` is a left
inverse of its `Encrypt`). -/
def kmsId : List Nat → Except String (List Nat) := fun x => .ok x

/-! ## Helper lemmas about the backoff executor -/

lemma min_mul_pow_min (a m c : Nat) :
    min (min a m * 2 ^ c) m = min (a * 2 ^ c) m := by
  rcases Nat.le_total a m with h | h
  · rw [Nat.min_eq_left h]
  · have h1 : (1 : Nat) ≤ 2 ^ c := Nat.one_le_two_pow
    have h2 : m * 1 ≤ m * 2 ^ c := Nat.mul_le_mul (le_refl m) h1
    rw [mul_one] at h2
    have h3 : a * 1 ≤ a * 2 ^ c := Nat.mul_le_mul (le_refl a) h1
    rw [mul_one] at h3
    rw [Nat.min_eq_right h, Nat.min_eq_right h2, Nat.min_eq_right (le_trans h h3)]

lemma retryLoop_always_fail {A E : Type} (op : Nat → Except E A) (m : Nat)
    (es : Nat → E) (hop : ∀ i, op i = .error (es i)) :
    ∀ (r i d : Nat) (le : Option E),
      (retryLoop op m r i d le).result = none ∧
      (retryLoop op m r i d le).calls = r ∧
      (1 ≤ r → (retryLoop op m r i d le).error = some (es (i + r - 1))) := by
  intro r
  induction r with
  | zero => intro i d le; refine ⟨rfl, rfl, fun h => absurd h (by omega)⟩
  | succ r ih =>
    intro i d le
    have h := ih (i + 1) (min (d * 2) m) (some (es i))
    simp only [retryLoop, hop i]
    refine ⟨h.1, by rw [h.2.1], fun _ => ?_⟩
    rcases Nat.eq_zero_or_pos r with hr | hr
    · subst hr
      simp [retryLoop]
    · rw [h.2.2 hr]
      congr 2
      omega

lemma retryLoop_calls_pos {A E : Type} (op : Nat → Except E A) (m : Nat)
    (r i d : Nat) (le : Option E) (hr : 1 ≤ r) :
    1 ≤ (retryLoop op m r i d le).calls := by
  match r, hr with
  | r + 1, _ =>
    simp only [retryLoop]
    cases op i <;> simp

lemma retryLoop_head_not_sleep {A E : Type} (op : Nat → Except E A) (m : Nat)
    (r i d : Nat) (le : Option E) (x : Nat) :
    (retryLoop op m r i d le).events.get? 0 ≠ some (.sleep x) := by
  match r with
  | 0 => simp [retryLoop]
  | r + 1 =>
    simp only [retryLoop]
    cases op i <;> simp

lemma retryLoop_attempt_pos {A E : Type} (op : Nat → Except E A) (m : Nat) :
    ∀ (r i d : Nat) (le : Option E) (j k : Nat),
      (retryLoop op m r i d le).events.get? j = some (.attempt k) →
      i ≤ k ∧ j = 2 * (k - i) := by
  intro r
  induction r with
  | zero => intro i d le j k h; simp [retryLoop] at h
  | succ r ih =>
    intro i d le j k h
    simp only [retryLoop] at h
    cases hop : op i with
    | ok a =>
      rw [hop] at h
      match j, h with
      | 0, h =>
        simp only [List.get?_cons_zero, Option.some.injEq, RetryEvent.attempt.injEq] at h
        omega
      | j + 1, h => simp at h
    | error e =>
      rw [hop] at h
      match j, h with
      | 0, h =>
        simp only [List.get?_cons_zero, Option.some.injEq, RetryEvent.attempt.injEq] at h
        omega
      | 1, h => simp at h
      | j + 2, h =>
        simp only [List.get?_cons_succ] at h
        have := ih (i + 1) (min (d * 2) m) (some e) j k h
        omega

lemma retryLoop_sleep_before_attempt {A E : Type} (op : Nat → Except E A) (m : Nat) :
    ∀ (r i d : Nat) (le : Option E) (j k : Nat), d ≤ m →
      (retryLoop op m r i d le).events.get? j = some (.attempt k) → i + 1 ≤ k →
      (retryLoop op m r i d le).events.get? (j - 1) =
        some (.sleep (min (d * 2 ^ (k - 1 - i)) m)) := by
  intro r
  induction r with
  | zero => intro i d le j k hd h hk; simp [retryLoop] at h
  | succ r ih =>
    intro i d le j k hd h hk
    rcases hop : op i with e | a
    · -- failed attempt: the trace is attempt i :: sleep d :: deeper trace
      simp only [retryLoop, hop] at h ⊢
      rcases j with _ | _ | j
      · simp only [List.get?_cons_zero, Option.some.injEq, RetryEvent.attempt.injEq] at h
        omega
      · simp at h
      · simp only [List.get?_cons_succ] at h
        have hpos := retryLoop_attempt_pos op m r (i + 1) (min (d * 2) m) (some e) j k h
        rcases Nat.lt_or_ge k (i + 2) with hk2 | hk2
        · -- the attempt found is the very next one: k = i + 1, j = 0,
          -- and the preceding event is the sleep of the current delay
          have hki : k = i + 1 := by omega
          have hj0 : j = 0 := by omega
          subst hki
          subst hj0
          have hd1 : min (d * 2 ^ (i + 1 - 1 - i)) m = d := by
            simp [Nat.min_eq_left hd]
          rw [hd1]
          have hidx : (0 : Nat) + 2 - 1 = 1 := rfl
          rw [hidx]
          simp only [List.get?_cons_succ, List.get?_cons_zero]
        · -- the attempt is deeper in the recursion: use the induction
          -- hypothesis with the doubled-and-capped delay
          have hjpos : 2 ≤ j := by omega
          have hrec := ih (i + 1) (min (d * 2) m) (some e) j k
            (Nat.min_le_right _ _) h (by omega)
          have hstep : min (min (d * 2) m * 2 ^ (k - 1 - (i + 1))) m =
              min (d * 2 ^ (k - 1 - i)) m := by
            rw [min_mul_pow_min]
            congr 1
            have he : k - 1 - i = (k - 1 - (i + 1)) + 1 := by omega
            rw [he, pow_succ]
            ring
          rw [hstep] at hrec
          have hidx : j + 2 - 1 = (j - 1) + 2 := by omega
          rw [hidx]
          simp only [List.get?_cons_succ]
          exact hrec
    · -- successful attempt: the trace is the single event attempt i
      simp only [retryLoop, hop] at h
      rcases j with _ | j
      · simp only [List.get?_cons_zero, Option.some.injEq, RetryEvent.attempt.injEq] at h
        omega
      · simp at h

lemma retryLoop_sleepsOf {A E : Type} (op : Nat → Except E A) (m : Nat) :
    ∀ (r i d : Nat) (le : Option E), d ≤ m →
      ∀ (j x : Nat), (sleepsOf (retryLoop op m r i d le).events).get? j = some x →
        x = min (d * 2 ^ j) m := by
  intro r
  induction r with
  | zero => intro i d le hd j x h; simp [retryLoop, sleepsOf] at h
  | succ r ih =>
    intro i d le hd j x h
    simp only [retryLoop] at h
    cases hop : op i with
    | ok a => rw [hop] at h; simp [sleepsOf] at h
    | error e =>
      rw [hop] at h
      simp only [sleepsOf, List.filterMap_cons] at h
      match j, h with
      | 0, h =>
        simp only [List.get?_cons_zero, Option.some.injEq] at h
        rw [← h]
        simp [Nat.min_eq_left hd]
      | j + 1, h =>
        simp only [List.get?_cons_succ] at h
        have hrec := ih (i + 1) (min (d * 2) m) (some e) (Nat.min_le_right _ _) j x
          (by simpa [sleepsOf] using h)
        rw [hrec, min_mul_pow_min]
        congr 1
        rw [pow_succ]
        ring

/-! ## Helper lemmas about `Get` -/

lemma Get_fresh_ok (cfg : Config) (co : Collab) (cache : Cache) (now : Nat)
    (key : String) (cs : CachedSecret) (v : String)
    (h1 : alookup cache key = some cs) (h2 : now - cs.fetchedAt < cfg.cacheTTL)
    (h3 : co.dec cs.encryptedValue = .ok v) :
    Get cfg co cache now key = ⟨v, none, cache, 0⟩ := by
  simp [Get, h1, h2, h3]

lemma Get_fresh_decErr (cfg : Config) (co : Collab) (cache : Cache) (now : Nat)
    (key : String) (cs : CachedSecret) (e : String)
    (h1 : alookup cache key = some cs) (h2 : now - cs.fetchedAt < cfg.cacheTTL)
    (h3 : co.dec cs.encryptedValue = .error e) :
    Get cfg co cache now key = ⟨"", some (.cacheDecrypt key), cache, 0⟩ := by
  simp [Get, h1, h2, h3]

lemma Get_miss (cfg : Config) (co : Collab) (cache : Cache) (now : Nat)
    (key : String) (h1 : alookup cache key = none) :
    Get cfg co cache now key = getRefresh cfg co cache now key := by
  simp [Get, h1]

lemma Get_stale (cfg : Config) (co : Collab) (cache : Cache) (now : Nat)
    (key : String) (cs : CachedSecret) (h1 : alookup cache key = some cs)
    (h2 : ¬(now - cs.fetchedAt < cfg.cacheTTL)) :
    Get cfg co cache now key = getRefresh cfg co cache now key := by
  simp [Get, h1, h2]

lemma getRefresh_storeCalls (cfg : Config) (co : Collab) (cache : Cache)
    (now : Nat) (key : String) :
    (getRefresh cfg co cache now key).storeCalls = (fetchSecrets cfg co).calls := by
  simp only [getRefresh]
  rcases h1 : (fetchSecrets cfg co).error with _ | e
  · rcases h2 : installLoop co.enc now cache ((fetchSecrets cfg co).result.getD [])
      with ⟨cache1, oe⟩
    rcases oe with _ | e2
    · rcases h3 : alookup cache1 key with _ | cs
      · simp [h2, h3]
      · rcases h4 : co.dec cs.encryptedValue with e3 | v
        · simp [h2, h3, h4]
        · simp [h2, h3, h4]
    · simp [h2]
  · simp

lemma getRefresh_ok_lookup (cfg : Config) (co : Collab) (cache : Cache)
    (now : Nat) (key : String)
    (h : (getRefresh cfg co cache now key).error = none) :
    ∃ cs, alookup (getRefresh cfg co cache now key).cache key = some cs ∧
      co.dec cs.encryptedValue = .ok (getRefresh cfg co cache now key).value := by
  simp only [getRefresh] at h ⊢
  rcases h1 : (fetchSecrets cfg co).error with _ | e
  · rcases h2 : installLoop co.enc now cache ((fetchSecrets cfg co).result.getD [])
      with ⟨cache1, oe⟩
    rcases oe with _ | e2
    · rcases h3 : alookup cache1 key with _ | cs
      · rw [h1] at h
        simp [h2, h3] at h
      · rcases h4 : co.dec cs.encryptedValue with e3 | v
        · rw [h1] at h
          simp [h2, h3, h4] at h
        · refine ⟨cs, ?_, ?_⟩
          · simp [h2, h3, h4]
          · simp [h2, h3, h4]
    · rw [h1] at h
      simp [h2] at h
  · rw [h1] at h
    simp at h

lemma Get_ok_lookup (cfg : Config) (co : Collab) (cache : Cache) (now : Nat)
    (key : String) (h : (Get cfg co cache now key).error = none) :
    ∃ cs, alookup (Get cfg co cache now key).cache key = some cs ∧
      co.dec cs.encryptedValue = .ok (Get cfg co cache now key).value := by
  rcases h1 : alookup cache key with _ | cs0
  · rw [Get_miss cfg co cache now key h1] at h ⊢
    exact getRefresh_ok_lookup cfg co cache now key h
  · by_cases h2 : now - cs0.fetchedAt < cfg.cacheTTL
    · rcases h3 : co.dec cs0.encryptedValue with e | v
      · rw [Get_fresh_decErr cfg co cache now key cs0 e h1 h2 h3] at h
        simp at h
      · rw [Get_fresh_ok cfg co cache now key cs0 v h1 h2 h3] at h ⊢
        exact ⟨cs0, h1, h3⟩
    · rw [Get_stale cfg co cache now key cs0 h1 h2] at h ⊢
      exact getRefresh_ok_lookup cfg co cache now key h

/-! ## Helper lemmas about base64 -/

lemma b64Index_b64Char_fin : ∀ s : Fin 64, b64Index (b64Char s.val) = some s.val := by
  decide

lemma b64Index_b64Char {s : Nat} (h : s < 64) : b64Index (b64Char s) = some s :=
  b64Index_b64Char_fin ⟨s, h⟩

lemma b64Char_ne_pad_fin : ∀ s : Fin 64, b64Char s.val ≠ '=' := by
  decide

lemma b64Char_ne_pad {s : Nat} (h : s < 64) : b64Char s ≠ '=' :=
  b64Char_ne_pad_fin ⟨s, h⟩

/-- Decoding is a left inverse of encoding on byte lists. -/
theorem b64_decode_encode :
    ∀ (x : List Nat), (∀ y ∈ x, y < 256) → b64Decode (b64Encode x) = some x
  | [], _ => rfl
  | [a], h => by
    have ha : a < 256 := h a (by simp)
    have h1 := b64Index_b64Char (s := a / 4) (by omega)
    have h2 := b64Index_b64Char (s := a % 4 * 16) (by omega)
    simp only [b64Encode, b64Decode, h1, h2, if_pos rfl, and_self, if_true,
      Option.some.injEq, List.cons.injEq, and_true]
    omega
  | [a, b], h => by
    have ha : a < 256 := h a (by simp)
    have hb : b < 256 := h b (by simp)
    have h1 := b64Index_b64Char (s := a / 4) (by omega)
    have h2 := b64Index_b64Char (s := a % 4 * 16 + b / 16) (by omega)
    have h3 := b64Index_b64Char (s := b % 16 * 4) (by omega)
    have hne3 := b64Char_ne_pad (s := b % 16 * 4) (by omega)
    simp only [b64Encode, b64Decode, h1, h2, h3, if_neg hne3, if_pos rfl, if_true,
      Option.some.injEq, List.cons.injEq, and_true]
    exact ⟨by omega, by omega⟩
  | a :: b :: c :: rest, h => by
    have ha : a < 256 := h a (by simp)
    have hb : b < 256 := h b (by simp)
    have hc : c < 256 := h c (by simp)
    have h1 := b64Index_b64Char (s := a / 4) (by omega)
    have h2 := b64Index_b64Char (s := a % 4 * 16 + b / 16) (by omega)
    have h3 := b64Index_b64Char (s := b % 16 * 4 + c / 64) (by omega)
    have h4 := b64Index_b64Char (s := c % 64) (by omega)
    have hne3 := b64Char_ne_pad (s := b % 16 * 4 + c / 64) (by omega)
    have hne4 := b64Char_ne_pad (s := c % 64) (by omega)
    have hrec := b64_decode_encode rest (fun y hy => h y (by simp [hy]))
    simp only [b64Encode, b64Decode, h1, h2, h3, h4, if_neg hne3, if_neg hne4,
      hrec, Option.map_some', Option.some.injEq, List.cons.injEq]
    refine ⟨by omega, by omega, by omega, trivial⟩

/-! ## The claims -/

/-- C1: the spec's full-replace refresh semantics fail on the code.  The
update loop of `Get` only overwrites keys present in the fetched mapping and
never clears the map, so a previously cached key (`OLD`, stale at time 10
with TTL 10) survives a refresh whose payload holds only `NEW`: `Get("OLD")`
triggers the refresh and then finds the leftover entry, returning the old
plaintext with no error instead of the `KeyNotFound` error the spec
requires, and the post-refresh cache is not restricted to the new payload's
keys. -/
theorem get_refresh_keeps_removed_key :
    ("OLD" ∉ ([("NEW", "v")].map Prod.fst)) ∧
    collabNew.parse "P" = some [("NEW", "v")] ∧
    (∀ i, collabNew.store i = .payload (some "P")) ∧
    Get cfgT collabNew [("OLD", ⟨"old", 0⟩)] 10 "OLD" =
      ⟨"old", none, [("OLD", ⟨"old", 0⟩), ("NEW", ⟨"v", 10⟩)], 1⟩ :=
  ⟨by decide, by decide, fun _ => rfl, by decide⟩

/-- C2 counterexample: the claim "if `Get(k)` succeeds at `t0`, a second
`Get(k)` at `t1` with `t1 - t0 < TTL` performs no store call" is false as
stated.  With TTL 10 and an entry fetched at time 0, the first `Get` at
`t0 = 9` succeeds from the cache, and the second at `t1 = 18` (with
`t1 - t0 = 9 < 10`) finds the entry stale (`18 - 0 ≥ 10`) and calls the
store: freshness is measured from `fetchedAt`, not from the previous
successful `Get`. -/
theorem get_freshness_counterexample :
    (Get cfgT collabOK [("K", ⟨"v", 0⟩)] 9 "K").error = none ∧
    18 - 9 < cfgT.cacheTTL ∧
    (Get cfgT collabOK (Get cfgT collabOK [("K", ⟨"v", 0⟩)] 9 "K").cache 18 "K").storeCalls ≠ 0 := by
  decide

/-- C2 (amended): if `Get(k)` succeeds and the entry it leaves in the cache
for `k` has fetch time `f`, then a second `Get(k)` at any `t1` with
`t1 - f < TTL` performs no store call, returns the same value, and leaves
the cache unchanged (when the first `Get` itself refreshed, `f` is that
refresh instant, recovering the claim for `t1 - t0 < TTL`); moreover a `Get`
performs no store call exactly when the cache holds an entry for the key
with `now - fetchedAt < TTL` — the code's freshness test. -/
theorem get_cache_freshness (cfg : Config) (hN : 1 ≤ cfg.maxAttempts)
    (co : Collab) (cache0 : Cache) (now0 now1 : Nat) (key : String)
    (cs : CachedSecret)
    (h1 : (Get cfg co cache0 now0 key).error = none)
    (h2 : alookup (Get cfg co cache0 now0 key).cache key = some cs)
    (h3 : now1 - cs.fetchedAt < cfg.cacheTTL) :
    Get cfg co (Get cfg co cache0 now0 key).cache now1 key =
      ⟨(Get cfg co cache0 now0 key).value, none,
        (Get cfg co cache0 now0 key).cache, 0⟩ ∧
    ∀ (cache : Cache) (now : Nat),
      ((Get cfg co cache now key).storeCalls = 0 ↔
        ∃ cs2, alookup cache key = some cs2 ∧
          now - cs2.fetchedAt < cfg.cacheTTL) := by
  constructor
  · obtain ⟨cs0, hlk, hdec⟩ := Get_ok_lookup cfg co cache0 now0 key h1
    have hcs : cs0 = cs := by
      rw [hlk] at h2
      exact Option.some.inj h2
    subst hcs
    exact Get_fresh_ok cfg co (Get cfg co cache0 now0 key).cache now1 key cs0
      (Get cfg co cache0 now0 key).value hlk h3 hdec
  · intro cache now
    constructor
    · intro h0
      by_contra hne
      push_neg at hne
      have hget : Get cfg co cache now key = getRefresh cfg co cache now key := by
        rcases hlk : alookup cache key with _ | cs2
        · exact Get_miss cfg co cache now key hlk
        · exact Get_stale cfg co cache now key cs2 hlk (Nat.not_lt.mpr (hne cs2 hlk))
      rw [hget, getRefresh_storeCalls] at h0
      have hpos := retryLoop_calls_pos
        (fun i => fetchAttempt cfg.secretName co.parse (co.store i))
        cfg.maxDelay cfg.maxAttempts 0 cfg.initialDelay none hN
      simp only [fetchSecrets, retry] at h0
      omega
    · rintro ⟨cs2, hlk, hfr⟩
      rcases hdec2 : co.dec cs2.encryptedValue with e | v
      · rw [Get_fresh_decErr cfg co cache now key cs2 e hlk hfr hdec2]
      · rw [Get_fresh_ok cfg co cache now key cs2 v hlk hfr hdec2]

/-- Witness for C2 (amended): first `Get` at time 0 refreshes and installs
`K ↦ v` with fetch time 0; a second `Get` at time 5 (TTL 10) is a pure
cache hit. -/
theorem get_cache_freshness_witness :
    (1 ≤ cfgT.maxAttempts) ∧
    ((Get cfgT collabOK [] 0 "K").error = none) ∧
    (alookup (Get cfgT collabOK [] 0 "K").cache "K" = some ⟨"v", 0⟩) ∧
    (5 - (CachedSecret.mk "v" 0).fetchedAt < cfgT.cacheTTL) ∧
    (Get cfgT collabOK (Get cfgT collabOK [] 0 "K").cache 5 "K" =
        ⟨(Get cfgT collabOK [] 0 "K").value, none,
          (Get cfgT collabOK [] 0 "K").cache, 0⟩ ∧
      ∀ (cache : Cache) (now : Nat),
        ((Get cfgT collabOK cache now "K").storeCalls = 0 ↔
          ∃ cs2, alookup cache "K" = some cs2 ∧
            now - cs2.fetchedAt < cfgT.cacheTTL)) :=
  ⟨by decide, by decide, by decide, by decide,
    get_cache_freshness cfgT (by decide) collabOK [] 0 5 "K" ⟨"v", 0⟩
      (by decide) (by decide) (by decide)⟩

/-- C3: if the operation fails on every attempt, `retry` invokes it exactly
`maxAttempts` times and returns the last attempt's error with no result;
consequently `Get` on a missing or stale key with an always-failing store
fails with that fetch error after exactly `maxAttempts` store calls, leaving
the cache untouched. -/
theorem retry_exhaustion {A E : Type} (cfg : Config) (hN : 1 ≤ cfg.maxAttempts)
    (op : Nat → Except E A) (es : Nat → E) (hop : ∀ i, op i = .error (es i))
    (co : Collab) (fs : Nat → String)
    (hstore : ∀ i, co.store i = .failure (fs i))
    (cache : Cache) (now : Nat) (key : String)
    (hmiss : alookup cache key = none ∨
      ∃ cs, alookup cache key = some cs ∧
        ¬(now - cs.fetchedAt < cfg.cacheTTL)) :
    (retry cfg op).calls = cfg.maxAttempts ∧
    (retry cfg op).result = none ∧
    (retry cfg op).error = some (es (cfg.maxAttempts - 1)) ∧
    Get cfg co cache now key =
      ⟨"", some (.fetch (.store (fs (cfg.maxAttempts - 1)))), cache,
        cfg.maxAttempts⟩ := by
  have hgen := retryLoop_always_fail op cfg.maxDelay es hop
    cfg.maxAttempts 0 cfg.initialDelay none
  have hfetch := retryLoop_always_fail
    (fun i => fetchAttempt cfg.secretName co.parse (co.store i)) cfg.maxDelay
    (fun i => .store (fs i)) (fun i => by simp [hstore i, fetchAttempt])
    cfg.maxAttempts 0 cfg.initialDelay none
  refine ⟨hgen.2.1, hgen.1, ?_, ?_⟩
  · simpa [retry] using hgen.2.2 hN
  · have hget : Get cfg co cache now key = getRefresh cfg co cache now key := by
      rcases hmiss with h | ⟨cs, hlk, hst⟩
      · exact Get_miss cfg co cache now key h
      · exact Get_stale cfg co cache now key cs hlk hst
    rw [hget]
    have herr : (fetchSecrets cfg co).error =
        some (.store (fs (cfg.maxAttempts - 1))) := by
      simpa [fetchSecrets, retry] using hfetch.2.2 hN
    have hcalls : (fetchSecrets cfg co).calls = cfg.maxAttempts := by
      simpa [fetchSecrets, retry] using hfetch.2.1
    simp [getRefresh, herr, hcalls]

/-- Witness for C3 at the 3-attempt test configuration with an
always-failing operation and an always-failing store. -/
theorem retry_exhaustion_witness :
    (1 ≤ cfgT.maxAttempts) ∧
    (∀ i, opFail i = .error "e") ∧
    (∀ i, collabStoreFail.store i = .failure "neterr") ∧
    (alookup [] "K" = none ∨
      ∃ cs, alookup [] "K" = some cs ∧
        ¬((0 : Nat) - cs.fetchedAt < cfgT.cacheTTL)) ∧
    ((retry cfgT opFail).calls = cfgT.maxAttempts ∧
      (retry cfgT opFail).result = none ∧
      (retry cfgT opFail).error = some "e" ∧
      Get cfgT collabStoreFail [] 0 "K" =
        ⟨"", some (.fetch (.store "neterr")), [], cfgT.maxAttempts⟩) :=
  ⟨by decide, fun _ => rfl, fun _ => rfl, Or.inl rfl,
    retry_exhaustion cfgT (by decide) opFail (fun _ => "e") (fun _ => rfl)
      collabStoreFail (fun _ => "neterr") (fun _ => rfl) [] 0 "K"
      (Or.inl rfl)⟩

/-- C4 (implicit): the refresh is not atomic under encryption failure.
Concretely, with an empty prior cache and fetched mapping
`A ↦ x, B ↦ y` where encryption fails exactly on `y`, `Get("A")` returns
the encryption error, yet the entry for `A` (processed before the failing
key) is already installed, so the post-state cache differs from the
pre-state cache. -/
theorem get_partial_install_on_encrypt_failure :
    (Get cfgT collabEncFail [] 0 "A").error = some (.encryptFail "encboom") ∧
    (Get cfgT collabEncFail [] 0 "A").cache ≠ ([] : Cache) ∧
    (Get cfgT collabEncFail [] 0 "A").cache = [("A", ⟨"x", 0⟩)] := by
  decide

/-- C5: if the requested key misses or is stale and the fetch fails after
retry exhaustion, `Get` returns that fetch error with an empty value and the
cache contents are exactly what they were before the call. -/
theorem get_fetch_failure_leaves_cache (cfg : Config) (co : Collab)
    (cache : Cache) (now : Nat) (key : String) (e : FetchErr)
    (hmiss : alookup cache key = none ∨
      ∃ cs, alookup cache key = some cs ∧
        ¬(now - cs.fetchedAt < cfg.cacheTTL))
    (hfe : (fetchSecrets cfg co).error = some e) :
    Get cfg co cache now key =
      ⟨"", some (.fetch e), cache, (fetchSecrets cfg co).calls⟩ := by
  have hget : Get cfg co cache now key = getRefresh cfg co cache now key := by
    rcases hmiss with h | ⟨cs, hlk, hst⟩
    · exact Get_miss cfg co cache now key h
    · exact Get_stale cfg co cache now key cs hlk hst
  rw [hget]
  simp [getRefresh, hfe]

/-- Witness for C5: a failing store, a cache holding an unrelated key `X`,
and a request for the missing key `K`. -/
theorem get_fetch_failure_leaves_cache_witness :
    ((alookup [("X", ⟨"c", 0⟩)] "K" = none ∨
        ∃ cs, alookup [("X", ⟨"c", 0⟩)] "K" = some cs ∧
          ¬((0 : Nat) - cs.fetchedAt < cfgT.cacheTTL)) ∧
      (fetchSecrets cfgT collabStoreFail).error = some (.store "neterr") ∧
      Get cfgT collabStoreFail [("X", ⟨"c", 0⟩)] 0 "K" =
        ⟨"", some (.fetch (.store "neterr")), [("X", ⟨"c", 0⟩)],
          (fetchSecrets cfgT collabStoreFail).calls⟩) :=
  ⟨Or.inl (by decide), by decide,
    get_fetch_failure_leaves_cache cfgT collabStoreFail [("X", ⟨"c", 0⟩)] 0
      "K" (.store "neterr") (Or.inl (by decide)) (by decide)⟩

/-- C6: on a poll tick whose `Get` succeeds with value `val`, the watch
callback fires with `val` exactly when `val` differs from the last-known
value, never fires when it is unchanged, and the last-known value becomes
`val`; a failing tick changes nothing, and the poll loop folds this step
over the tick outcomes. -/
theorem watch_notify_iff_changed (val lastVal : String) :
    ((watchStep (.ok val) lastVal).2 = some val ↔ val ≠ lastVal) ∧
    ((watchStep (.ok val) lastVal).2 = none ↔ val = lastVal) ∧
    ((watchStep (.ok val) lastVal).1 = val) ∧
    (∀ e, watchStep (.error e) lastVal = (lastVal, none)) ∧
    (∀ rest, watchLoop lastVal (.ok val :: rest) =
      if val = lastVal then watchLoop lastVal rest
      else val :: watchLoop val rest) := by
  by_cases h : val = lastVal
  · subst h
    simp [watchStep, watchLoop]
  · simp [watchStep, watchLoop, h]

/-- C7: every delay the backoff executor performs follows the schedule
`min(initialDelay * 2^(k-1), maxDelay)` (given the code's configuration
invariant `initialDelay ≤ maxDelay`): attempts sit at even trace positions
`2k`, the event preceding the `k`-th retry (`k ≥ 1`) is a sleep of exactly
`min(initialDelay * 2^(k-1), maxDelay)`, no delay precedes the first
attempt, and the `j`-th performed delay overall is
`min(initialDelay * 2^j, maxDelay)`. -/
theorem retry_backoff_delays {A E : Type} (cfg : Config)
    (hle : cfg.initialDelay ≤ cfg.maxDelay) (op : Nat → Except E A) :
    (∀ j k, (retry cfg op).events.get? j = some (.attempt k) → j = 2 * k) ∧
    (∀ j k, (retry cfg op).events.get? j = some (.attempt k) → 1 ≤ k →
      (retry cfg op).events.get? (j - 1) =
        some (.sleep (min (cfg.initialDelay * 2 ^ (k - 1)) cfg.maxDelay))) ∧
    (∀ x, (retry cfg op).events.get? 0 ≠ some (.sleep x)) ∧
    (∀ j x, (sleepsOf (retry cfg op).events).get? j = some x →
      x = min (cfg.initialDelay * 2 ^ j) cfg.maxDelay) := by
  refine ⟨?_, ?_, ?_, ?_⟩
  · intro j k h
    simp only [retry] at h
    have := retryLoop_attempt_pos op cfg.maxDelay cfg.maxAttempts 0
      cfg.initialDelay none j k h
    omega
  · intro j k h hk
    simp only [retry] at h ⊢
    have := retryLoop_sleep_before_attempt op cfg.maxDelay cfg.maxAttempts 0
      cfg.initialDelay none j k hle h (by omega)
    simpa using this
  · intro x
    simp only [retry]
    exact retryLoop_head_not_sleep op cfg.maxDelay cfg.maxAttempts 0
      cfg.initialDelay none x
  · intro j x h
    simp only [retry] at h
    exact retryLoop_sleepsOf op cfg.maxDelay cfg.maxAttempts 0
      cfg.initialDelay none hle j x h

/-- Witness for C7 at the test configuration (500ms ≤ 5s) with an
always-failing operation. -/
theorem retry_backoff_delays_witness :
    (cfgT.initialDelay ≤ cfgT.maxDelay) ∧
    ((∀ j k, (retry cfgT opFail).events.get? j = some (.attempt k) →
        j = 2 * k) ∧
      (∀ j k, (retry cfgT opFail).events.get? j = some (.attempt k) → 1 ≤ k →
        (retry cfgT opFail).events.get? (j - 1) =
          some (.sleep (min (cfgT.initialDelay * 2 ^ (k - 1)) cfgT.maxDelay))) ∧
      (∀ x, (retry cfgT opFail).events.get? 0 ≠ some (.sleep x)) ∧
      (∀ j x, (sleepsOf (retry cfgT opFail).events).get? j = some x →
        x = min (cfgT.initialDelay * 2 ^ j) cfgT.maxDelay)) :=
  ⟨by decide, retry_backoff_delays cfgT (by decide) opFail⟩

/-- C8: on a fresh cache hit whose decryption fails, `Get` returns the
cached-value decryption error for that key with an empty value, makes no
store call, and leaves the cache unchanged — no refresh is triggered. -/
theorem get_fresh_decrypt_failure (cfg : Config) (co : Collab) (cache : Cache)
    (now : Nat) (key : String) (cs : CachedSecret) (e : String)
    (h1 : alookup cache key = some cs)
    (h2 : now - cs.fetchedAt < cfg.cacheTTL)
    (h3 : co.dec cs.encryptedValue = .error e) :
    Get cfg co cache now key = ⟨"", some (.cacheDecrypt key), cache, 0⟩ := by
  simp [Get, h1, h2, h3]

/-- Witness for C8: a fresh entry for `K` and an always-failing decryption. -/
theorem get_fresh_decrypt_failure_witness :
    (alookup [("K", ⟨"v", 0⟩)] "K" = some ⟨"v", 0⟩) ∧
    ((5 : Nat) - (CachedSecret.mk "v" 0).fetchedAt < cfgT.cacheTTL) ∧
    (collabDecFail.dec (CachedSecret.mk "v" 0).encryptedValue =
      .error "decboom") ∧
    Get cfgT collabDecFail [("K", ⟨"v", 0⟩)] 5 "K" =
      ⟨"", some (.cacheDecrypt "K"), [("K", ⟨"v", 0⟩)], 0⟩ :=
  ⟨by decide, by decide, rfl,
    get_fresh_decrypt_failure cfgT collabDecFail [("K", ⟨"v", 0⟩)] 5 "K"
      ⟨"v", 0⟩ "decboom" (by decide) (by decide) rfl⟩

/-- C9: a single fetch attempt fails with the empty-payload error exactly
when the store's payload is absent or the empty string, fails with the
malformed-payload error exactly when a non-empty payload does not parse as a
flat string-keyed mapping, returns the full parsed mapping otherwise, and
propagates a store error as such. -/
theorem fetch_attempt_error_conditions (secretName : String)
    (parse : String → Option (List (String × String))) :
    (∀ reply, fetchAttempt secretName parse reply =
        .error (.emptyPayload secretName) ↔
      reply = .payload none ∨ reply = .payload (some "")) ∧
    (∀ reply, fetchAttempt secretName parse reply =
        .error .malformedPayload ↔
      ∃ s, reply = .payload (some s) ∧ s ≠ "" ∧ parse s = none) ∧
    (∀ s m, s ≠ "" → parse s = some m →
      fetchAttempt secretName parse (.payload (some s)) = .ok m) ∧
    (∀ e, fetchAttempt secretName parse (.failure e) = .error (.store e)) := by
  refine ⟨?_, ?_, ?_, ?_⟩
  · intro reply
    rcases reply with e | s
    · simp [fetchAttempt]
    · rcases s with _ | s
      · simp [fetchAttempt]
      · by_cases hs : s = ""
        · subst hs
          simp [fetchAttempt]
        · rcases hp : parse s with _ | m
          · simp [fetchAttempt, hs, hp]
          · simp [fetchAttempt, hs, hp]
  · intro reply
    rcases reply with e | s
    · simp [fetchAttempt]
    · rcases s with _ | s
      · simp [fetchAttempt]
      · by_cases hs : s = ""
        · subst hs
          simp [fetchAttempt]
        · rcases hp : parse s with _ | m
          · simp [fetchAttempt, hs, hp]
          · simp [fetchAttempt, hs, hp]
  · intro s m hs hp
    simp [fetchAttempt, hs, hp]
  · intro e
    simp [fetchAttempt]

/-- C10: with the external service's `Decrypt` a left inverse of its
`Encrypt` (on byte lists), `DecryptValue` recovers the plaintext from
`EncryptValue`'s output; in particular the base64 encoding produced by
`EncryptValue` always decodes. -/
theorem encrypt_decrypt_roundtrip
    (kmsEncrypt kmsDecrypt : List Nat → Except String (List Nat))
    (p blob : List Nat) (henc : kmsEncrypt p = .ok blob)
    (hbytes : ∀ y ∈ blob, y < 256) (hinv : kmsDecrypt blob = .ok p) :
    EncryptValue kmsEncrypt p = .ok (b64Encode blob) ∧
    DecryptValue kmsDecrypt (b64Encode blob) = .ok p := by
  constructor
  · simp [EncryptValue, henc]
  · simp [DecryptValue, b64_decode_encode blob hbytes, hinv]

/-- Witness for C10 at the identity service and the plaintext bytes
`[104, 105]`. -/
theorem encrypt_decrypt_roundtrip_witness :
    (kmsId [104, 105] = .ok [104, 105]) ∧
    (∀ y ∈ ([104, 105] : List Nat), y < 256) ∧
    (EncryptValue kmsId [104, 105] = .ok (b64Encode [104, 105]) ∧
      DecryptValue kmsId (b64Encode [104, 105]) = .ok [104, 105]) :=
  ⟨rfl, by decide,
    encrypt_decrypt_roundtrip kmsId kmsId [104, 105] [104, 105] rfl
      (by decide) rfl⟩

end SecretsManagerGo
